import Mathlib

/-!
Shallow embedding of the scope-overlap and post-block-usage checker from
`wemake_python_styleguide/visitors/ast/blocks.py`.

Modelling conventions:

* Lexical contexts (the results of the external `get_context` resolver) are
  identified by `Nat`; contexts are used only as mapping keys, exactly as in
  the source.
* Syntax-tree nodes are identified by `Nat`; the external containment oracle
  `is_contained_by(node, block)` is an arbitrary boolean function
  `contained : Nat → Nat → Bool` fixed for a tree.
* Name sets produced by the external name extractor are `Finset String`.
* The two visitors consume streams of events, mirroring how the tree walker
  dispatches node visits to `BlockVariableVisitor._scope` (binding events)
  and to `AfterBlockVariablesVisitor._add_to_scope` / `_check_variable_usage`
  (block registration and value-loading reads of `ast.Name` nodes).
* Each reported violation is modelled by the anchor node plus the payload the
  source passes as `text`.  For `BlockAndLocalOverlapViolation` the source
  computes `', '.join(shadow)` over the Python set `shadow`, whose iteration
  order is unspecified; the model therefore records the set `shadow` itself.
  For `ControlVarUsedAfterBlockViolation` the payload is the single name.
-/

/-- Modelled from the spec: the constant `UNUSED_VARIABLE` is imported from
`wemake_python_styleguide.constants`, which is not part of the analysed
sources.  The spec's unused-name sentinel appears in its scenarios as the
placeholder name `_`. -/
def UNUSED_VARIABLE : String := "_"

/-- A binding event: one call to `BlockVariableVisitor._scope(node, names,
is_local=...)`.  `ctx` is the lexical context of `node` as resolved by
`get_context` inside `_Scope.__init__`. -/
structure BindingEvent where
  ctx : Nat
  names : Finset String
  is_local : Bool
  node : Nat
deriving DecidableEq

/-- The state owned by `_Scope`: the two `ClassVar` default-dict maps from
context to set of names.  A missing key of the Python `defaultdict(set)` is
the empty set, so the maps are total functions into `Finset String`. -/
structure ScopeState where
  block_scopes : Nat → Finset String
  local_scopes : Nat → Finset String

/-- A reported `BlockAndLocalOverlapViolation`: anchored at the binding node
and carrying the overlap set `shadow` (the source displays it as
`', '.join(shadow)`, in unspecified Python set-iteration order). -/
structure OverlapViolation where
  node : Nat
  overlap : Finset String
deriving DecidableEq

/-- `_Scope._get_scope` composed with the map lookup: selects the local or
the block namespace map. -/
def get_scope (st : ScopeState) (is_local : Bool) : Nat → Finset String :=
  if is_local then st.local_scopes else st.block_scopes

/-- `_Scope.shadowing`: for an empty name set returns the empty set;
otherwise starts from the opposite namespace's entry for the context and,
for block bindings, also unions in the same-context block namespace, then
intersects with `names`. -/
def shadowing (st : ScopeState) (ctx : Nat) (names : Finset String)
    (is_local : Bool) : Finset String :=
  if names = ∅ then ∅
  else
    let current_names := get_scope st (!is_local) ctx
    let current_names :=
      if !is_local then current_names ∪ get_scope st is_local ctx
      else current_names
    current_names ∩ names

/-- `_Scope.add_to_scope`: unions `names` into the target namespace map's
entry for the context and removes the sentinel `UNUSED_VARIABLE` from the
result.  Only the target map's entry for this context is written. -/
def add_to_scope (st : ScopeState) (ctx : Nat) (names : Finset String)
    (is_local : Bool) : ScopeState :=
  if is_local then
    { st with local_scopes := (Function.update st.local_scopes ctx
        ((st.local_scopes ctx ∪ names) \ {UNUSED_VARIABLE})) }
  else
    { st with block_scopes := (Function.update st.block_scopes ctx
        ((st.block_scopes ctx ∪ names) \ {UNUSED_VARIABLE})) }

/-- `BlockVariableVisitor._scope`: computes the shadow set on the current
state, reports one violation when it is non-empty, then commits the names
via `add_to_scope` regardless. -/
def scope_step (st : ScopeState) (e : BindingEvent) :
    ScopeState × List OverlapViolation :=
  let shadow := shadowing st e.ctx e.names e.is_local
  let violations := if shadow = ∅ then [] else [⟨e.node, shadow⟩]
  (add_to_scope st e.ctx e.names e.is_local, violations)

/-- The initial content of the `defaultdict(set)` maps: every context is
mapped to the empty set. -/
def scope_init : ScopeState := ⟨fun _ => ∅, fun _ => ∅⟩

/-- Processing a stream of binding events starting from a given state,
accumulating violations in traversal order. -/
def scope_run_from (st : ScopeState) :
    List BindingEvent → ScopeState × List OverlapViolation
  | [] => (st, [])
  | e :: rest =>
    let step := scope_step st e
    let tail := scope_run_from step.1 rest
    (tail.1, step.2 ++ tail.2)

/-- One analysis run over a tree's binding events.  The first run of a
process starts from the empty maps. -/
def scope_run (evs : List BindingEvent) : ScopeState × List OverlapViolation :=
  scope_run_from scope_init evs

/-- A process performing successive analysis runs with freshly constructed
`BlockVariableVisitor` instances.  Because `_Scope._block_scopes` and
`_Scope._local_scopes` are `ClassVar` maps that are never reset, the state
at the end of one run is the state at the start of the next. -/
def scope_process_from (st : ScopeState) :
    List (List BindingEvent) → List (List OverlapViolation)
  | [] => []
  | evs :: rest =>
    let run := scope_run_from st evs
    run.2 :: scope_process_from run.1 rest

/-- A whole process: the first run starts from the empty `ClassVar` maps. -/
def scope_process (runs : List (List BindingEvent)) :
    List (List OverlapViolation) :=
  scope_process_from scope_init runs

/-- Events consumed by `AfterBlockVariablesVisitor`: block registrations
(calls to `_add_to_scope` from the `ExceptHandler`, `For`/`AsyncFor` and
`withitem` visitors) and reads (an `ast.Name` in `Load` position, dispatched
by `visit_Name` to `_check_variable_usage`). -/
inductive UsageEvent where
  | register (ctx : Nat) (names : Finset String) (node : Nat) : UsageEvent
  | read (ctx : Nat) (name : String) (node : Nat) : UsageEvent
deriving DecidableEq

/-- The per-instance `_block_variables` map: context → variable name →
ordered list of block nodes.  Missing keys of the nested Python
`defaultdict` are empty lists, so the map is a total function. -/
def UsageState : Type := Nat → String → List Nat

/-- A reported `ControlVarUsedAfterBlockViolation`: anchored at the reading
name node and carrying that name as text. -/
structure LeakViolation where
  node : Nat
  name : String
deriving DecidableEq

/-- `AfterBlockVariablesVisitor.__init__`: the instance's own
`_block_variables` map starts empty. -/
def usage_init : UsageState := fun _ _ => []

/-- `AfterBlockVariablesVisitor._add_to_scope`: appends `node` to the block
list of every name in `names`, under the context resolved for `node`.  No
name, the sentinel included, is filtered out here. -/
def usage_add_to_scope (st : UsageState) (ctx : Nat) (names : Finset String)
    (node : Nat) : UsageState :=
  fun c n => if c = ctx ∧ n ∈ names then st c n ++ [node] else st c n

/-- `AfterBlockVariablesVisitor._check_variable_usage`: fetches the block
list for the reader's context and name; if the read node is contained in
every listed block node (vacuously so for the empty list) nothing is
reported, otherwise one violation anchored at the read node. -/
def check_variable_usage (contained : Nat → Nat → Bool) (st : UsageState)
    (ctx : Nat) (name : String) (node : Nat) : List LeakViolation :=
  let blocks := st ctx name
  if blocks.all (fun b => contained node b) then []
  else [⟨node, name⟩]

/-- Dispatch of one event by `AfterBlockVariablesVisitor`. -/
def usage_step (contained : Nat → Nat → Bool) (st : UsageState) :
    UsageEvent → UsageState × List LeakViolation
  | .register ctx names node => (usage_add_to_scope st ctx names node, [])
  | .read ctx name node => (st, check_variable_usage contained st ctx name node)

/-- Processing a stream of usage events from a given state. -/
def usage_run_from (contained : Nat → Nat → Bool) (st : UsageState) :
    List UsageEvent → UsageState × List LeakViolation
  | [] => (st, [])
  | e :: rest =>
    let step := usage_step contained st e
    let tail := usage_run_from contained step.1 rest
    (tail.1, step.2 ++ tail.2)

/-- One analysis run of a freshly constructed `AfterBlockVariablesVisitor`:
`__init__` gives the instance its own empty `_block_variables` map, so every
run starts from `usage_init`. -/
def usage_run (contained : Nat → Nat → Bool) (evs : List UsageEvent) :
    UsageState × List LeakViolation :=
  usage_run_from contained usage_init evs

/-- A process performing successive runs, each with a freshly constructed
visitor instance: each run's map is its own, created empty by `__init__`. -/
def usage_process (contained : Nat → Nat → Bool) :
    List (List UsageEvent) → List (List LeakViolation)
  | [] => []
  | evs :: rest =>
    (usage_run contained evs).2 :: usage_process contained rest

/-- Whether an event registers name `n` as block-bound in context `c`
(used to state cross-context isolation). -/
def registers (e : UsageEvent) (c : Nat) (n : String) : Bool :=
  match e with
  | .register ctx names _ => ctx = c ∧ n ∈ names
  | .read _ _ _ => false

/-- Whether a binding event is a block (non-local) binding of name `n` in
context `c`. -/
def block_binds (e : BindingEvent) (c : Nat) (n : String) : Bool :=
  !e.is_local ∧ e.ctx = c ∧ n ∈ e.names

/-- The sentinel-freeness invariant of the scope maps: the sentinel is in no
entry of either namespace map. -/
def sentinel_free (st : ScopeState) : Prop :=
  ∀ c, UNUSED_VARIABLE ∉ st.block_scopes c ∧ UNUSED_VARIABLE ∉ st.local_scopes c

theorem scope_run_from_append (st : ScopeState) (xs ys : List BindingEvent) :
    scope_run_from st (xs ++ ys) =
      ((scope_run_from (scope_run_from st xs).1 ys).1,
        (scope_run_from st xs).2 ++ (scope_run_from (scope_run_from st xs).1 ys).2) := by
  induction xs generalizing st with
  | nil => simp [scope_run_from]
  | cons e rest ih => simp [scope_run_from, ih]

theorem add_to_scope_block_apply (st : ScopeState) (ctx : Nat)
    (names : Finset String) (c : Nat) :
    (add_to_scope st ctx names false).block_scopes c =
      if c = ctx then (st.block_scopes ctx ∪ names) \ {UNUSED_VARIABLE}
      else st.block_scopes c := by
  simp [add_to_scope, Function.update_apply]

theorem add_to_scope_block_other (st : ScopeState) (ctx : Nat)
    (names : Finset String) (c : Nat) :
    (add_to_scope st ctx names false).local_scopes c = st.local_scopes c := by
  simp [add_to_scope]

theorem add_to_scope_local_apply (st : ScopeState) (ctx : Nat)
    (names : Finset String) (c : Nat) :
    (add_to_scope st ctx names true).local_scopes c =
      if c = ctx then (st.local_scopes ctx ∪ names) \ {UNUSED_VARIABLE}
      else st.local_scopes c := by
  simp [add_to_scope, Function.update_apply]

theorem add_to_scope_local_other (st : ScopeState) (ctx : Nat)
    (names : Finset String) (c : Nat) :
    (add_to_scope st ctx names true).block_scopes c = st.block_scopes c := by
  simp [add_to_scope]

theorem sentinel_free_add_to_scope (st : ScopeState) (ctx : Nat)
    (names : Finset String) (is_local : Bool) (h : sentinel_free st) :
    sentinel_free (add_to_scope st ctx names is_local) := by
  intro c
  cases is_local with
  | false =>
    rw [add_to_scope_block_apply, add_to_scope_block_other]
    refine ⟨?_, (h c).2⟩
    split
    · intro hm
      exact (Finset.mem_sdiff.mp hm).2 (Finset.mem_singleton_self _)
    · exact (h c).1
  | true =>
    rw [add_to_scope_local_apply, add_to_scope_local_other]
    refine ⟨(h c).1, ?_⟩
    split
    · intro hm
      exact (Finset.mem_sdiff.mp hm).2 (Finset.mem_singleton_self _)
    · exact (h c).2

theorem sentinel_free_scope_run_from (st : ScopeState) (evs : List BindingEvent)
    (h : sentinel_free st) : sentinel_free (scope_run_from st evs).1 := by
  induction evs generalizing st with
  | nil => exact h
  | cons e rest ih =>
    simp only [scope_run_from]
    exact ih _ (sentinel_free_add_to_scope _ _ _ _ h)

theorem sentinel_free_scope_run (evs : List BindingEvent) :
    sentinel_free (scope_run evs).1 := by
  refine sentinel_free_scope_run_from _ _ ?_
  intro c
  simp [scope_init]

theorem shadowing_local_eq (st : ScopeState) (ctx : Nat) (names : Finset String) :
    shadowing st ctx names true = st.block_scopes ctx ∩ names := by
  unfold shadowing get_scope
  split
  · simp_all
  · rfl

theorem shadowing_block_eq (st : ScopeState) (ctx : Nat) (names : Finset String) :
    shadowing st ctx names false = (st.local_scopes ctx ∪ st.block_scopes ctx) ∩ names := by
  unfold shadowing get_scope
  split
  · simp_all
  · rfl

theorem sentinel_not_in_shadowing (st : ScopeState) (ctx : Nat)
    (names : Finset String) (is_local : Bool) (h : sentinel_free st) :
    UNUSED_VARIABLE ∉ shadowing st ctx names is_local := by
  cases is_local
  · rw [shadowing_block_eq]
    intro hm
    rcases Finset.mem_inter.mp hm with ⟨hm1, _⟩
    rcases Finset.mem_union.mp hm1 with h1 | h1
    · exact (h ctx).2 h1
    · exact (h ctx).1 h1
  · rw [shadowing_local_eq]
    intro hm
    exact (h ctx).1 (Finset.mem_inter.mp hm).1

theorem add_to_scope_subset (st : ScopeState) (ctx : Nat)
    (names : Finset String) (is_local : Bool) (c : Nat) (h : sentinel_free st) :
    st.block_scopes c ⊆ (add_to_scope st ctx names is_local).block_scopes c ∧
      st.local_scopes c ⊆ (add_to_scope st ctx names is_local).local_scopes c := by
  cases is_local with
  | false =>
    rw [add_to_scope_block_apply, add_to_scope_block_other]
    refine ⟨?_, Finset.Subset.refl _⟩
    split
    · rename_i hc
      subst hc
      intro x hx
      refine Finset.mem_sdiff.mpr ⟨Finset.mem_union_left _ hx, ?_⟩
      intro hs
      rw [Finset.mem_singleton] at hs
      subst hs
      exact (h c).1 hx
    · exact Finset.Subset.refl _
  | true =>
    rw [add_to_scope_local_apply, add_to_scope_local_other]
    refine ⟨Finset.Subset.refl _, ?_⟩
    split
    · rename_i hc
      subst hc
      intro x hx
      refine Finset.mem_sdiff.mpr ⟨Finset.mem_union_left _ hx, ?_⟩
      intro hs
      rw [Finset.mem_singleton] at hs
      subst hs
      exact (h c).2 hx
    · exact Finset.Subset.refl _

theorem scope_run_from_subset (st : ScopeState) (evs : List BindingEvent)
    (c : Nat) (h : sentinel_free st) :
    st.block_scopes c ⊆ (scope_run_from st evs).1.block_scopes c ∧
      st.local_scopes c ⊆ (scope_run_from st evs).1.local_scopes c := by
  induction evs generalizing st with
  | nil => exact ⟨Finset.Subset.refl _, Finset.Subset.refl _⟩
  | cons e rest ih =>
    simp only [scope_run_from, scope_step]
    have h1 := add_to_scope_subset st e.ctx e.names e.is_local c h
    have h2 := ih (add_to_scope st e.ctx e.names e.is_local)
      (sentinel_free_add_to_scope _ _ _ _ h)
    exact ⟨Finset.Subset.trans h1.1 h2.1, Finset.Subset.trans h1.2 h2.2⟩

theorem sentinel_not_in_scope_run_violations (st : ScopeState)
    (evs : List BindingEvent) (h : sentinel_free st) :
    ∀ v ∈ (scope_run_from st evs).2, UNUSED_VARIABLE ∉ v.overlap := by
  induction evs generalizing st with
  | nil => simp [scope_run_from]
  | cons e rest ih =>
    intro v hv
    simp only [scope_run_from, List.mem_append] at hv
    rcases hv with hv | hv
    · simp only [scope_step] at hv
      split at hv
      · simp at hv
      · rw [List.mem_singleton] at hv
        subst hv
        exact sentinel_not_in_shadowing st e.ctx e.names e.is_local h
    · exact ih (scope_step st e).1 (sentinel_free_add_to_scope _ _ _ _ h) v hv

theorem usage_run_from_append (contained : Nat → Nat → Bool) (st : UsageState)
    (xs ys : List UsageEvent) :
    usage_run_from contained st (xs ++ ys) =
      ((usage_run_from contained (usage_run_from contained st xs).1 ys).1,
        (usage_run_from contained st xs).2 ++
          (usage_run_from contained (usage_run_from contained st xs).1 ys).2) := by
  induction xs generalizing st with
  | nil => simp [usage_run_from]
  | cons e rest ih => simp [usage_run_from, ih]

theorem usage_run_from_no_register (contained : Nat → Nat → Bool)
    (st : UsageState) (evs : List UsageEvent) (c : Nat) (n : String)
    (h : ∀ e ∈ evs, registers e c n = false) :
    (usage_run_from contained st evs).1 c n = st c n := by
  induction evs generalizing st with
  | nil => rfl
  | cons e rest ih =>
    simp only [usage_run_from]
    have he := h e (List.mem_cons_self _ _)
    have hrest : ∀ x ∈ rest, registers x c n = false :=
      fun x hx => h x (List.mem_cons_of_mem _ hx)
    cases e with
    | read ctx name node => exact ih st hrest
    | register ctx names node =>
      rw [ih _ hrest]
      simp only [usage_step, usage_add_to_scope]
      rw [if_neg]
      intro hcn
      simp only [registers, decide_eq_false_iff_not] at he
      exact he ⟨hcn.1.symm ▸ rfl, hcn.2⟩

/-- C1: for every read event (a value-loading `ast.Name`), the check fetches
the block-node list registered so far for the reader's (context, name) key
and reports exactly one `ControlVarUsedAfterBlock` violation anchored at the
read node if and only if that list is non-empty and the read node is not
contained in every block node of the list; in particular an empty list
(the name was never block-bound in this context) reports nothing. -/
theorem read_check_iff (contained : Nat → Nat → Bool) (st : UsageState)
    (ctx : Nat) (name : String) (node : Nat) :
    usage_step contained st (.read ctx name node) =
        (st, check_variable_usage contained st ctx name node) ∧
      (check_variable_usage contained st ctx name node = [] ∨
        check_variable_usage contained st ctx name node = [⟨node, name⟩]) ∧
      (check_variable_usage contained st ctx name node = [⟨node, name⟩] ↔
        st ctx name ≠ [] ∧ ¬ ∀ b ∈ st ctx name, contained node b = true) ∧
      (st ctx name = [] →
        check_variable_usage contained st ctx name node = []) := by
  refine ⟨rfl, ?_, ?_, ?_⟩
  · by_cases hall : (st ctx name).all (fun b => contained node b) = true
    · exact Or.inl (by simp [check_variable_usage, hall])
    · exact Or.inr (by simp [check_variable_usage, hall])
  · by_cases hall : (st ctx name).all (fun b => contained node b) = true
    · have hres : check_variable_usage contained st ctx name node = [] := by
        simp [check_variable_usage, hall]
      rw [hres, List.all_eq_true] at *
      constructor
      · intro hv
        exact absurd hv (by simp)
      · intro hv
        exact absurd hall hv.2
    · have hres :
          check_variable_usage contained st ctx name node = [⟨node, name⟩] := by
        simp [check_variable_usage, hall]
      rw [hres, List.all_eq_true] at *
      constructor
      · intro _
        refine ⟨?_, hall⟩
        intro hempty
        exact hall (by simp [hempty])
      · intro _
        rfl
  · intro hempty
    simp [check_variable_usage, hempty]

/-- C1 witness: a name block-bound once in context 0 and read at a node not
contained in the block is reported. -/
theorem read_check_iff_witness :
    check_variable_usage (fun _ _ => false)
        (usage_run (fun _ _ => false) [.register 0 {"x"} 1]).1 0 "x" 2 =
      [⟨2, "x"⟩] :=
  (read_check_iff (fun _ _ => false)
      (usage_run (fun _ _ => false) [.register 0 {"x"} 1]).1 0 "x" 2).2.2.1.mpr
    ⟨by decide, by decide⟩

/-- C2 counterexample: two block bindings of the same name (the placeholder
`_`) in the same context report no overlap violation at all, contradicting
the claim that two block bindings of the same name in one context always
report an overlap. -/
theorem two_block_bindings_sentinel_no_overlap :
    (scope_run [⟨0, {UNUSED_VARIABLE}, false, 0⟩,
      ⟨0, {UNUSED_VARIABLE}, false, 1⟩]).2 = [] := by decide

/-- C2 (amended): the computed overlap is `block-namespace ∩ S` for a local
binding and `(local-namespace ∪ block-namespace) ∩ S` for a block binding; a
violation is reported iff the overlap is non-empty; two local bindings of
the same name in one context (no intervening block binding) report no
overlap; and two block bindings of the same name in one context do report
one, provided the name is not the unused-name sentinel. -/
theorem shadowing_overlap_spec :
    (∀ (st : ScopeState) (ctx : Nat) (names : Finset String),
      shadowing st ctx names true = st.block_scopes ctx ∩ names) ∧
    (∀ (st : ScopeState) (ctx : Nat) (names : Finset String),
      shadowing st ctx names false =
        (st.local_scopes ctx ∪ st.block_scopes ctx) ∩ names) ∧
    (∀ (st : ScopeState) (e : BindingEvent),
      (scope_step st e).2 ≠ [] ↔
        shadowing st e.ctx e.names e.is_local ≠ ∅) ∧
    (∀ (c n1 n2 : Nat) (n : String),
      (scope_run [⟨c, {n}, true, n1⟩, ⟨c, {n}, true, n2⟩]).2 = []) ∧
    (∀ (c n1 n2 : Nat) (n : String), n ≠ UNUSED_VARIABLE →
      (scope_run [⟨c, {n}, false, n1⟩, ⟨c, {n}, false, n2⟩]).2 =
        [⟨n2, {n}⟩]) := by
  refine ⟨shadowing_local_eq, shadowing_block_eq, ?_, ?_, ?_⟩
  · intro st e
    simp only [scope_step]
    split
    · rename_i hs
      simp [hs]
    · rename_i hs
      simp [hs]
  · intro c n1 n2 n
    simp [scope_run, scope_run_from, scope_step, shadowing_local_eq,
      add_to_scope_local_other, scope_init]
  · intro c n1 n2 n hn
    have h1 : shadowing scope_init c {n} false = ∅ := by
      rw [shadowing_block_eq]
      simp [scope_init]
    have hstep : (add_to_scope scope_init c {n} false).block_scopes c =
        {n} := by
      rw [add_to_scope_block_apply, if_pos rfl]
      ext x
      simp only [Finset.mem_sdiff, Finset.mem_union, Finset.mem_singleton,
        scope_init]
      constructor
      · intro hx
        rcases hx.1 with hx1 | hx1
        · exact absurd hx1 (Finset.not_mem_empty x)
        · exact hx1
      · intro hx
        subst hx
        exact ⟨Or.inr rfl, hn⟩
    have h2 : shadowing (add_to_scope scope_init c {n} false) c {n} false =
        {n} := by
      rw [shadowing_block_eq, add_to_scope_block_other, hstep]
      ext x
      simp [scope_init]
    simp only [scope_run, scope_run_from, scope_step, h1, h2]
    simp [Finset.singleton_ne_empty]

/-- C2 witness: for the non-sentinel name `x`, two block bindings in one
context report exactly one overlap violation containing `x`, anchored at the
second binding node. -/
theorem shadowing_overlap_spec_witness :
    (scope_run [⟨0, {"x"}, false, 1⟩, ⟨0, {"x"}, false, 2⟩]).2 =
      [⟨2, {"x"}⟩] :=
  shadowing_overlap_spec.2.2.2.2 0 1 2 "x" (by decide)

theorem union_sdiff_sentinel (s t : Finset String) (h : UNUSED_VARIABLE ∉ s) :
    (s ∪ t) \ {UNUSED_VARIABLE} = s ∪ (t \ {UNUSED_VARIABLE}) := by
  ext x
  simp only [Finset.mem_sdiff, Finset.mem_union, Finset.mem_singleton]
  constructor
  · rintro ⟨hx | hx, hne⟩
    · exact Or.inl hx
    · exact Or.inr ⟨hx, hne⟩
  · rintro (hx | ⟨hx, hne⟩)
    · refine ⟨Or.inl hx, ?_⟩
      intro he
      subst he
      exact h hx
    · exact ⟨Or.inr hx, hne⟩

/-- C3: on a binding event reached in a run, the target namespace map's
entry for the event's context becomes its previous value unioned with the
event's names minus the sentinel (whether or not a violation was reported,
since the committed state is computed unconditionally); an event with empty
names reports nothing and changes no entry of either map; and the opposite
map, as well as every other context's entry of the target map, is left
untouched. -/
theorem binding_commit_spec (evs : List BindingEvent) (e : BindingEvent) :
    (e.is_local = true →
      (scope_step (scope_run evs).1 e).1.local_scopes e.ctx =
        (scope_run evs).1.local_scopes e.ctx ∪
          (e.names \ {UNUSED_VARIABLE})) ∧
    (e.is_local = false →
      (scope_step (scope_run evs).1 e).1.block_scopes e.ctx =
        (scope_run evs).1.block_scopes e.ctx ∪
          (e.names \ {UNUSED_VARIABLE})) ∧
    (e.names = ∅ →
      (scope_step (scope_run evs).1 e).2 = [] ∧
      ∀ c, (scope_step (scope_run evs).1 e).1.block_scopes c =
            (scope_run evs).1.block_scopes c ∧
          (scope_step (scope_run evs).1 e).1.local_scopes c =
            (scope_run evs).1.local_scopes c) ∧
    (∀ c,
      (e.is_local = true →
        (scope_step (scope_run evs).1 e).1.block_scopes c =
          (scope_run evs).1.block_scopes c) ∧
      (e.is_local = false →
        (scope_step (scope_run evs).1 e).1.local_scopes c =
          (scope_run evs).1.local_scopes c)) ∧
    (∀ c, c ≠ e.ctx →
      (scope_step (scope_run evs).1 e).1.block_scopes c =
          (scope_run evs).1.block_scopes c ∧
        (scope_step (scope_run evs).1 e).1.local_scopes c =
          (scope_run evs).1.local_scopes c) := by
  have hsf := sentinel_free_scope_run evs
  have hstep : (scope_step (scope_run evs).1 e).1 =
      add_to_scope (scope_run evs).1 e.ctx e.names e.is_local := rfl
  refine ⟨?_, ?_, ?_, ?_, ?_⟩
  · intro hl
    rw [hstep, hl, add_to_scope_local_apply, if_pos rfl,
      union_sdiff_sentinel _ _ ((hsf e.ctx).2)]
  · intro hl
    rw [hstep, hl, add_to_scope_block_apply, if_pos rfl,
      union_sdiff_sentinel _ _ ((hsf e.ctx).1)]
  · intro hempty
    constructor
    · simp [scope_step, shadowing, hempty]
    · intro c
      rw [hstep]
      cases hl : e.is_local
      · rw [add_to_scope_block_apply, add_to_scope_block_other]
        refine ⟨?_, rfl⟩
        split
        · rename_i hc
          subst hc
          rw [hempty, Finset.union_empty]
          exact Finset.sdiff_eq_self_iff_disjoint.mpr
            (Finset.disjoint_singleton_right.mpr ((hsf e.ctx).1))
        · rfl
      · rw [add_to_scope_local_apply, add_to_scope_local_other]
        refine ⟨rfl, ?_⟩
        split
        · rename_i hc
          subst hc
          rw [hempty, Finset.union_empty]
          exact Finset.sdiff_eq_self_iff_disjoint.mpr
            (Finset.disjoint_singleton_right.mpr ((hsf e.ctx).2))
        · rfl
  · intro c
    constructor
    · intro hl
      rw [hstep, hl, add_to_scope_local_other]
    · intro hl
      rw [hstep, hl, add_to_scope_block_other]
  · intro c hc
    rw [hstep]
    cases hl : e.is_local
    · rw [add_to_scope_block_apply, add_to_scope_block_other, if_neg hc]
      exact ⟨rfl, rfl⟩
    · rw [add_to_scope_local_apply, add_to_scope_local_other, if_neg hc]
      exact ⟨rfl, rfl⟩

/-- C3 witness: after a run consisting of one block binding of `x`, a local
binding event of `y` in context 0 commits `y` into the local map while the
block map keeps exactly `x`. -/
theorem binding_commit_spec_witness :
    (scope_step (scope_run [⟨0, {"x"}, false, 1⟩]).1 ⟨0, {"y"}, true, 2⟩).1.local_scopes 0 =
        (scope_run [⟨0, {"x"}, false, 1⟩]).1.local_scopes 0 ∪
          (({"y"} : Finset String) \ {UNUSED_VARIABLE}) ∧
      (scope_step (scope_run [⟨0, {"x"}, false, 1⟩]).1 ⟨0, {"y"}, true, 2⟩).1.block_scopes 0 =
        (scope_run [⟨0, {"x"}, false, 1⟩]).1.block_scopes 0 :=
  ⟨(binding_commit_spec [⟨0, {"x"}, false, 1⟩] ⟨0, {"y"}, true, 2⟩).1 rfl,
    ((binding_commit_spec [⟨0, {"x"}, false, 1⟩] ⟨0, {"y"}, true, 2⟩).2.2.2.1 0).1 rfl⟩

/-- C4: evaluation at the failing input.  Analyzing the same tree (one block
binding of `x`) twice in one process, each time with a freshly constructed
visitor, yields no violation on the first run but a spurious overlap
violation on the second, because the `ClassVar` namespace maps carry state
across runs instead of being reset per run. -/
theorem classvar_state_leaks_across_runs :
    (scope_run [⟨0, {"x"}, false, 5⟩]).2 = [] ∧
      scope_process [[⟨0, {"x"}, false, 5⟩], [⟨0, {"x"}, false, 5⟩]] =
        [[], [⟨5, {"x"}⟩]] := by decide

/-- C5 counterexample: the leak tracker performs no sentinel exemption — a
block binding of the placeholder `_` (node 10) followed by a value-loading
read of `_` at a node (11) not contained in that block produces a
`ControlVarUsedAfterBlock` violation for the placeholder. -/
theorem sentinel_read_reported :
    (usage_run (fun _ _ => false)
        [.register 0 {UNUSED_VARIABLE} 10, .read 0 UNUSED_VARIABLE 11]).2 =
      [⟨11, UNUSED_VARIABLE⟩] := by decide

/-- C5 (amended): the sentinel exemption belongs to the overlap bookkeeping
only; the block-usage tracker registers the placeholder like any other name
and a value-loading read of the placeholder is reported exactly when some
block node bound it earlier in the reader's context and the read is not
contained in every such block node. -/
theorem sentinel_leak_bookkeeping_spec :
    (∀ (st : UsageState) (ctx bnode : Nat) (names : Finset String),
      UNUSED_VARIABLE ∈ names →
        usage_add_to_scope st ctx names bnode ctx UNUSED_VARIABLE =
          st ctx UNUSED_VARIABLE ++ [bnode]) ∧
    (∀ (contained : Nat → Nat → Bool) (st : UsageState) (ctx node : Nat),
      check_variable_usage contained st ctx UNUSED_VARIABLE node ≠ [] ↔
        st ctx UNUSED_VARIABLE ≠ [] ∧
          ¬ ∀ b ∈ st ctx UNUSED_VARIABLE, contained node b = true) := by
  constructor
  · intro st ctx bnode names hmem
    simp [usage_add_to_scope, hmem]
  · intro contained st ctx node
    have h := (read_check_iff contained st ctx UNUSED_VARIABLE node).2
    rcases h.1 with hres | hres
    · rw [hres]
      simp only [ne_eq, not_true_eq_false, false_iff]
      intro hcon
      have := h.2.1.mpr hcon
      rw [hres] at this
      exact absurd this (by simp)
    · rw [hres]
      simp only [ne_eq]
      constructor
      · intro _
        exact h.2.1.mp hres
      · intro _
        simp

/-- C5 witness: registering the placeholder under context 0 via node 3
appends node 3 to its block list. -/
theorem sentinel_leak_bookkeeping_spec_witness :
    usage_add_to_scope usage_init 0 {UNUSED_VARIABLE} 3 0 UNUSED_VARIABLE =
      usage_init 0 UNUSED_VARIABLE ++ [3] :=
  sentinel_leak_bookkeeping_spec.1 usage_init 0 3 {UNUSED_VARIABLE}
    (by decide)

/-- C6: evaluation at the failing input.  Block bindings of `a` (node 1) and
`b` (node 2) followed by one local binding event of `{a, b}` (node 3) in the
same context report exactly one overlap violation, anchored at node 3 and
carrying each offending name once, as the set `{a, b}`; the source renders
this set as `', '.join(shadow)` without sorting. -/
theorem overlap_report_at_multi_name_input :
    (scope_run [⟨0, {"a"}, false, 1⟩, ⟨0, {"b"}, false, 2⟩,
      ⟨0, {"a", "b"}, true, 3⟩]).2 = [⟨3, {"a", "b"}⟩] := by decide

/-- C7: in any run the sentinel is never committed to either namespace map,
and consequently never appears in any reported overlap set, however often it
is rebound in block or local position. -/
theorem sentinel_never_in_overlap (evs : List BindingEvent) :
    (∀ c, UNUSED_VARIABLE ∉ (scope_run evs).1.block_scopes c ∧
        UNUSED_VARIABLE ∉ (scope_run evs).1.local_scopes c) ∧
      ∀ v ∈ (scope_run evs).2, UNUSED_VARIABLE ∉ v.overlap :=
  ⟨sentinel_free_scope_run evs,
    sentinel_not_in_scope_run_violations scope_init evs
      (fun c => by simp [scope_init])⟩

/-- C7 witness: a run that does report an overlap (two block bindings of
`x`) reports a set not containing the sentinel. -/
theorem sentinel_never_in_overlap_witness :
    (⟨2, {"x"}⟩ : OverlapViolation) ∈
        (scope_run [⟨0, {"x"}, false, 1⟩, ⟨0, {"x"}, false, 2⟩]).2 ∧
      UNUSED_VARIABLE ∉ (⟨2, {"x"}⟩ : OverlapViolation).overlap :=
  ⟨by decide,
    (sentinel_never_in_overlap [⟨0, {"x"}, false, 1⟩, ⟨0, {"x"}, false, 2⟩]).2
      _ (by decide)⟩

/-- C8: the namespace maps grow monotonically across a run: every entry of
both maps after processing additional events contains its previous value, so
a recorded name is never removed by later events. -/
theorem namespace_maps_monotone (evs evs' : List BindingEvent) (c : Nat) :
    (scope_run evs).1.block_scopes c ⊆
        (scope_run (evs ++ evs')).1.block_scopes c ∧
      (scope_run evs).1.local_scopes c ⊆
        (scope_run (evs ++ evs')).1.local_scopes c := by
  have h1 : (scope_run (evs ++ evs')).1 =
      (scope_run_from (scope_run evs).1 evs').1 := by
    rw [scope_run, scope_run_from_append]
    rfl
  rw [h1]
  exact scope_run_from_subset _ _ _ (sentinel_free_scope_run evs)

/-- C8 witness: `x`, recorded as block-bound by the first event, is still
recorded after a later local-binding event. -/
theorem namespace_maps_monotone_witness :
    "x" ∈ (scope_run ([⟨0, {"x"}, false, 1⟩] ++
      [⟨0, {"y"}, true, 2⟩])).1.block_scopes 0 :=
  (namespace_maps_monotone [⟨0, {"x"}, false, 1⟩] [⟨0, {"y"}, true, 2⟩] 0).1
    (by decide)

/-- C9: leak detection never crosses lexical-context boundaries: if no event
registers name `n` as block-bound in context `c`, then the block list for
`(c, n)` stays empty and a read of `n` in context `c` adds no violation,
whatever was registered for other contexts. -/
theorem leak_check_context_isolated (contained : Nat → Nat → Bool)
    (evs : List UsageEvent) (c node : Nat) (n : String)
    (h : ∀ e ∈ evs, registers e c n = false) :
    (usage_run contained evs).1 c n = [] ∧
      (usage_run contained (evs ++ [.read c n node])).2 =
        (usage_run contained evs).2 := by
  have hstate : (usage_run contained evs).1 c n = [] := by
    rw [usage_run, usage_run_from_no_register contained usage_init evs c n h]
    rfl
  refine ⟨hstate, ?_⟩
  have happ := usage_run_from_append contained usage_init evs [.read c n node]
  rw [usage_run, happ]
  have hc : check_variable_usage contained
      (usage_run_from contained usage_init evs).1 c n node = [] := by
    rw [usage_run] at hstate
    simp [check_variable_usage, hstate]
  simp only [usage_run_from, usage_step, hc]
  simp [usage_run]

/-- C9 witness: `x` block-bound only in context 1; a read of `x` in context
0 reports nothing. -/
theorem leak_check_context_isolated_witness :
    (usage_run (fun _ _ => false) [.register 1 {"x"} 5]).1 0 "x" = [] ∧
      (usage_run (fun _ _ => false)
          ([.register 1 {"x"} 5] ++ [.read 0 "x" 7])).2 =
        (usage_run (fun _ _ => false) [.register 1 {"x"} 5]).2 :=
  leak_check_context_isolated (fun _ _ => false) [.register 1 {"x"} 5] 0 7 "x"
    (by decide)

/-- C10: every usage-tracker instance owns a block-registration map created
empty by its constructor, so in a process of successive runs each run's
violations equal those of the run on its own events alone — earlier
instances' registrations never influence later instances. -/
theorem per_instance_usage_state (contained : Nat → Nat → Bool)
    (runs : List (List UsageEvent)) :
    (∀ c n, usage_init c n = []) ∧
      usage_process contained runs =
        runs.map (fun evs => (usage_run contained evs).2) := by
  refine ⟨fun _ _ => rfl, ?_⟩
  induction runs with
  | nil => rfl
  | cons evs rest ih => simp [usage_process, ih]
